import Mathlib

/-!
# OpenLAN switch HTTP gateway and user command

A shallow embedding of `pkg/switch/http.go` (token handling, the
authentication middleware, the start closure and the snapshot aggregation of
`getIndex`) and of `cmd/api/v5/user.go` (`User.Url`, `User.Add`), with the
properties of the gateway stated and proved over it.

Go strings are byte sequences; they are embedded as lists of bytes.
-/

namespace Openlan

/-! ## Strings -/

/-- A Go string: an immutable sequence of bytes. -/
abbrev GoString := List (Fin 256)

/-- The bytes of an ASCII string literal of the source. -/
def lit (s : String) : GoString := s.toList.map (fun c => Fin.ofNat c.toNat)

namespace strings

/-- Go `strings.HasPrefix(s, p)`: `len(s) >= len(p) && s[:len(p)] == p`. -/
def HasPrefix (s p : GoString) : Bool :=
  decide (p.length ≤ s.length) && (s.take p.length == p)

/-- Go `strings.Index(s, substr)`, counted from offset `i`: the offset of the first
occurrence, or `none` where Go returns `-1`. -/
def indexFrom (substr : GoString) : GoString → Nat → Option Nat
  | [], i => if substr = [] then some i else none
  | c :: cs, i => if HasPrefix (c :: cs) substr then some i else indexFrom substr cs (i + 1)

/-- Go `strings.Index(s, substr)`. -/
def Index (s substr : GoString) : Option Nat := indexFrom substr s 0

/-- Go `strings.Contains(s, substr)`: `Index(s, substr) >= 0`. -/
def Contains (s substr : GoString) : Bool := (Index s substr).isSome

/-- The loop of Go `genSplit` with `sepSave = 0`: at most `k` cuts at the separator,
the rest of the string being the last piece. -/
def splitLoop (sep : GoString) : Nat → GoString → List GoString
  | 0, s => [s]
  | k + 1, s =>
    match Index s sep with
    | none => [s]
    | some m => s.take m :: splitLoop sep k (s.drop (m + sep.length))

/-- Go `strings.SplitN(s, sep, n)` for a non-empty separator and `n >= 0`, the way
`User.Add` calls it: no piece for `n = 0`, else at most `min n (len(s)+1)` pieces. -/
def SplitN (s sep : GoString) (n : Nat) : List GoString :=
  if n = 0 then [] else splitLoop sep (min n (s.length + 1) - 1) s

/-- Go `asciiSpace`: tab, line feed, vertical tab, form feed, carriage return, space. -/
def asciiSpace (b : Fin 256) : Bool :=
  b.val == 9 || b.val == 10 || b.val == 11 || b.val == 12 || b.val == 13 || b.val == 32

/-- The UTF-8 encodings of the non-ASCII runes of Go `unicode.IsSpace`: U+0085,
U+00A0, U+1680, U+2000..U+200A, U+2028, U+2029, U+202F, U+205F, U+3000. -/
def spaceRunes : List GoString :=
  [[0xC2, 0x85], [0xC2, 0xA0], [0xE1, 0x9A, 0x80],
   [0xE2, 0x80, 0x80], [0xE2, 0x80, 0x81], [0xE2, 0x80, 0x82], [0xE2, 0x80, 0x83],
   [0xE2, 0x80, 0x84], [0xE2, 0x80, 0x85], [0xE2, 0x80, 0x86], [0xE2, 0x80, 0x87],
   [0xE2, 0x80, 0x88], [0xE2, 0x80, 0x89], [0xE2, 0x80, 0x8A],
   [0xE2, 0x80, 0xA8], [0xE2, 0x80, 0xA9], [0xE2, 0x80, 0xAF], [0xE2, 0x81, 0x9F],
   [0xE3, 0x80, 0x80]]

/-- Width in bytes of the white-space rune the string starts with, `0` if it starts
with none. With `rev` the string and the encodings are read backwards, which gives
the width of the white-space rune a string ends with. -/
def spaceWidth (rev : Bool) (s : GoString) : Nat :=
  match s with
  | [] => 0
  | b :: _ =>
    if asciiSpace b then 1
    else
      match spaceRunes.find? (fun p => HasPrefix s (if rev then p.reverse else p)) with
      | some p => p.length
      | none => 0

/-- Removal of the leading white-space runes, one per unit of fuel. -/
def trimLoop (rev : Bool) : Nat → GoString → GoString
  | 0, s => s
  | k + 1, s => if spaceWidth rev s = 0 then s else trimLoop rev k (s.drop (spaceWidth rev s))

/-- Go `strings.TrimSpace(s)`: the string without its leading and trailing Unicode
white space. Every round removes at least one byte, so `len(s)` rounds are enough. -/
def TrimSpace (s : GoString) : GoString :=
  let l := trimLoop false s.length s
  (trimLoop true l.length l.reverse).reverse

/-- Go string comparison `a < b`: bytewise lexicographic, a proper prefix being smaller. -/
def Less : GoString → GoString → Bool
  | [], [] => false
  | [], _ :: _ => true
  | _ :: _, [] => false
  | a :: as, b :: bs => if a < b then true else if b < a then false else Less as bs

end strings

/-! ## MD5 and hexadecimal encoding -/

namespace md5

/-- Per-step left-rotation amounts of MD5 (RFC 1321). -/
def shifts : List Nat :=
  [7, 12, 17, 22, 7, 12, 17, 22, 7, 12, 17, 22, 7, 12, 17, 22,
   5, 9, 14, 20, 5, 9, 14, 20, 5, 9, 14, 20, 5, 9, 14, 20,
   4, 11, 16, 23, 4, 11, 16, 23, 4, 11, 16, 23, 4, 11, 16, 23,
   6, 10, 15, 21, 6, 10, 15, 21, 6, 10, 15, 21, 6, 10, 15, 21]

/-- The sine-derived constants of MD5 (RFC 1321). -/
def K : List Nat :=
  [0xd76aa478, 0xe8c7b756, 0x242070db, 0xc1bdceee, 0xf57c0faf, 0x4787c62a, 0xa8304613, 0xfd469501,
   0x698098d8, 0x8b44f7af, 0xffff5bb1, 0x895cd7be, 0x6b901122, 0xfd987193, 0xa679438e, 0x49b40821,
   0xf61e2562, 0xc040b340, 0x265e5a51, 0xe9b6c7aa, 0xd62f105d, 0x02441453, 0xd8a1e681, 0xe7d3fbc8,
   0x21e1cde6, 0xc33707d6, 0xf4d50d87, 0x455a14ed, 0xa9e3e905, 0xfcefa3f8, 0x676f02d9, 0x8d2a4c8a,
   0xfffa3942, 0x8771f681, 0x6d9d6122, 0xfde5380c, 0xa4beea44, 0x4bdecfa9, 0xf6bb4b60, 0xbebfbc70,
   0x289b7ec6, 0xeaa127fa, 0xd4ef3085, 0x04881d05, 0xd9d4d039, 0xe6db99e5, 0x1fa27cf8, 0xc4ac5665,
   0xf4292244, 0x432aff97, 0xab9423a7, 0xfc93a039, 0x655b59c3, 0x8f0ccc92, 0xffeff47d, 0x85845dd1,
   0x6fa87e4f, 0xfe2ce6e0, 0xa3014314, 0x4e0811a1, 0xf7537e82, 0xbd3af235, 0x2ad7d2bb, 0xeb86d391]

/-- Reduction to a 32-bit word. -/
def w32 (x : Nat) : Nat := x % 2 ^ 32

/-- Bitwise complement of a 32-bit word. -/
def not32 (x : Nat) : Nat := w32 x ^^^ 0xffffffff

/-- Left rotation of a 32-bit word. -/
def rotl (x c : Nat) : Nat := w32 ((w32 x <<< c) ||| (w32 x >>> (32 - c)))

/-- The four chaining words. -/
structure State where
  a : Nat
  b : Nat
  c : Nat
  d : Nat
deriving DecidableEq

/-- The initial chaining value. -/
def init : State := ⟨0x67452301, 0xefcdab89, 0x98badcfe, 0x10325476⟩

/-- One of the 64 steps of the compression function on the message words `m`. -/
def step (m : List Nat) (st : State) (i : Nat) : State :=
  let f :=
    if i < 16 then (st.b &&& st.c) ||| (not32 st.b &&& st.d)
    else if i < 32 then (st.d &&& st.b) ||| (not32 st.d &&& st.c)
    else if i < 48 then st.b ^^^ st.c ^^^ st.d
    else st.c ^^^ (st.b ||| not32 st.d)
  let g :=
    if i < 16 then i
    else if i < 32 then (5 * i + 1) % 16
    else if i < 48 then (3 * i + 5) % 16
    else (7 * i) % 16
  let x := w32 (f + st.a + K.getD i 0 + m.getD g 0)
  ⟨st.d, w32 (st.b + rotl x (shifts.getD i 0)), st.b, st.c⟩

/-- A little-endian 32-bit word from four bytes. -/
def word (bs : List Nat) : Nat :=
  bs.getD 0 0 + 256 * bs.getD 1 0 + 65536 * bs.getD 2 0 + 16777216 * bs.getD 3 0

/-- The sixteen message words of a 64-byte block. -/
def words (blk : List Nat) : List Nat :=
  (List.range 16).map (fun j => word ((blk.drop (4 * j)).take 4))

/-- The compression function: 64 steps, then addition into the chaining value. -/
def block (st : State) (blk : List Nat) : State :=
  let r := (List.range 64).foldl (step (words blk)) st
  ⟨w32 (st.a + r.a), w32 (st.b + r.b), w32 (st.c + r.c), w32 (st.d + r.d)⟩

/-- The `n` low bytes of `x`, least significant first. -/
def leBytes (n x : Nat) : List Nat :=
  (List.range n).map (fun j => (x >>> (8 * j)) % 256)

/-- MD5 padding: a `0x80` byte, zeros up to 56 modulo 64, the bit length on 64 bits. -/
def pad (msg : List Nat) : List Nat :=
  msg ++ [0x80] ++ List.replicate ((119 - msg.length % 64) % 64) 0
    ++ leBytes 8 ((8 * msg.length) % 2 ^ 64)

/-- The chaining value after all blocks of the padded message. -/
def digest (msg : List Nat) : State :=
  let p := pad msg
  (List.range (p.length / 64)).foldl (fun st i => block st ((p.drop (64 * i)).take 64)) init

/-- A byte from a natural number. -/
def toByte (x : Nat) : Fin 256 := Fin.ofNat x

/-- Go `md5.Sum(data)`: the 16-byte digest of RFC 1321. -/
def Sum (data : GoString) : List (Fin 256) :=
  let st := digest (data.map (fun b => b.val))
  (leBytes 4 st.a ++ leBytes 4 st.b ++ leBytes 4 st.c ++ leBytes 4 st.d).map toByte

end md5

namespace hex

/-- Go `hextable` of `encoding/hex`. -/
def hextable : GoString := lit "0123456789abcdef"

/-- The two lowercase digits of a byte, high nibble first. -/
def encodeByte (b : Fin 256) : GoString :=
  [hextable.getD (b.val >>> 4) 0, hextable.getD (b.val &&& 0x0f) 0]

/-- Go `hex.EncodeToString(src)`. -/
def EncodeToString (src : List (Fin 256)) : GoString := src.flatMap encodeByte

end hex

/-! ## The gateway -/

/-- The `Http` struct of `http.go`. The collaborators behind pointers
(`switcher`, `server`, `router`) are kept as handles. -/
structure Http where
  switcher : Nat
  listen : GoString
  adminToken : GoString
  guestToken : GoString
  adminFile : GoString
  server : Option Nat
  crtFile : GoString
  keyFile : GoString
  pubDir : GoString
  router : Option Nat
deriving DecidableEq

/-- The part of `*http.Request` the gateway reads: the method, the URL path and
the three results `(token, pass, ok)` of `r.BasicAuth()`. -/
structure Request where
  Method : GoString
  Path : GoString
  token : GoString
  pass : GoString
  ok : Bool
deriving DecidableEq

/-- A response header map, `map[string][]string`. -/
abbrev Header := String → List String

/-- Go `Header.Set(key, value)`: the key now holds exactly `[value]`. Go brings the key
to its canonical case in `Set` and in `Get` alike; keys are kept here as written. -/
def Header.Set (hd : Header) (key value : String) : Header :=
  fun k => if k = key then [value] else hd k

/-- The observable state of a `http.ResponseWriter`. -/
structure ResponseWriter where
  header : Header
  status : Option Nat
  body : String

/-- Go `http.StatusUnauthorized`. -/
def StatusUnauthorized : Nat := 401

/-- Go `http.Error(w, msg, code)`: sets the plain-text content headers, writes the
status code, then prints the message and a newline to the body. -/
def httpError (w : ResponseWriter) (msg : String) (code : Nat) : ResponseWriter :=
  { header := (w.header.Set "Content-Type" "text/plain; charset=utf-8").Set
      "X-Content-Type-Options" "nosniff"
    status := some code
    body := w.body ++ msg ++ "\n" }

/-- What the middleware did with a request: it either called
`next.ServeHTTP(w, r)` with the given arguments, or answered by itself leaving
the writer in the given state. -/
inductive Served where
  | forwarded (w : ResponseWriter) (r : Request)
  | replied (w : ResponseWriter)

/-- True when the wrapped handler was called. -/
def Served.invoked : Served → Bool
  | .forwarded _ _ => true
  | .replied _ => false

/-- The writer as the middleware itself left it. -/
def Served.writer : Served → ResponseWriter
  | .forwarded w _ => w
  | .replied w => w

/-- `Http.IsAuth` (http.go:182-195). The writer argument is unused by the source. -/
def Http.IsAuth (h : Http) (r : Request) : Bool :=
  if strings.HasPrefix r.Path (lit "/api/") then
    if !r.ok || r.token != h.adminToken then false else true
  else if strings.HasPrefix r.Path (lit "/get/") then
    if !r.ok || r.token != h.guestToken then false else true
  else true

/-- `Http.Middleware` (http.go:79-89): the handler function it returns, applied to
a writer and a request. -/
def Http.Middleware (h : Http) (w : ResponseWriter) (r : Request) : Served :=
  if h.IsAuth r then
    .forwarded w r
  else
    .replied (httpError { w with header := w.header.Set "WWW-Authenticate" "Basic" }
      "Authorization Required" StatusUnauthorized)

/-! ### Tokens -/

/-- `Http.SetToken` (http.go:143-147). -/
def Http.SetToken (h : Http) (value : GoString) : Http :=
  let sum := md5.Sum value
  { h with
    adminToken := value
    guestToken := (hex.EncodeToString (sum.take 16)).take 12 }

/-- The files of the host: the bytes stored under a path, `none` when the path does
not exist. -/
abbrev FileSys := GoString → Option GoString

/-- The file system with the bytes `data` stored under `path`. -/
def FileSys.put (fs : FileSys) (path data : GoString) : FileSys :=
  fun p => if p = path then some data else fs p

/-- What the operating system answers during `SaveToken`: whether `os.OpenFile`
fails, and whether `f.Write` fails, in which case only the first `n` bytes have
reached the file. -/
structure SaveEnv where
  openFails : Bool
  writeFails : Option Nat

/-- The save writes the whole token: neither the open nor the write fails. -/
def SaveEnv.succeeds (io : SaveEnv) : Bool := !io.openFails && io.writeFails.isNone

/-- `Http.SaveToken` (http.go:100-111), as the file system it leaves. The file is
opened with `O_RDWR|O_TRUNC|O_CREATE`, so an opened file starts empty. -/
def Http.SaveToken (h : Http) (fs : FileSys) (io : SaveEnv) : FileSys :=
  if io.openFails then fs
  else
    match io.writeFails with
    | some n => fs.put h.adminFile (h.adminToken.take n)
    | none => fs.put h.adminFile h.adminToken

/-- `Http.LoadToken` (http.go:125-141). `readFails` says whether `ioutil.ReadFile`
returns an error, `random` is the value of `libol.GenRandom(32)`. -/
def Http.LoadToken (h : Http) (fs : FileSys) (readFails : Bool) (random : GoString) : Http :=
  let token : GoString :=
    match fs h.adminFile with
    | none => []
    | some contents => if readFails then [] else strings.TrimSpace contents
  let token := if token = [] then random else token
  h.SetToken token

/-! ### Start -/

/-- The errors a serve call returns: Go `http.ErrServerClosed`, which follows
`Shutdown`, or any other failure to bind or serve. -/
inductive ServeError where
  | ErrServerClosed
  | failure (msg : GoString)
deriving DecidableEq

/-- The function `Http.Start` hands to `promise.Done` (http.go:158-171).
`ListenAndServe` and `ListenAndServeTLS` are the values the two serve calls return,
`none` being Go's `nil` error. -/
def Http.StartFunc (h : Http) (ListenAndServe : Option ServeError)
    (ListenAndServeTLS : GoString → GoString → Option ServeError) : Option ServeError :=
  if h.keyFile = [] || h.crtFile = [] then
    match ListenAndServe with
    | some err => some err
    | none => none
  else
    match ListenAndServeTLS h.crtFile h.keyFile with
    | some err => some err
    | none => none

/-! ### The index snapshot -/

namespace schema

/-- The fields of `schema.Point` that `getIndex` reads, and the others. -/
structure Point where
  Network : GoString
  Remote : GoString
  Other : GoString
deriving DecidableEq

/-- The field of `schema.Neighbor` that `getIndex` reads, and the others. -/
structure Neighbor where
  IpAddr : GoString
  Other : GoString
deriving DecidableEq

/-- The fields of `schema.Link` that `getIndex` reads, and the others. -/
structure Link where
  Network : GoString
  Server : GoString
  Other : GoString
deriving DecidableEq

/-- The field of `schema.OnLine` that `getIndex` reads, and the others. -/
structure OnLine where
  HitTime : Int
  Other : GoString
deriving DecidableEq

/-- The field of `schema.VPNClient` that `getIndex` reads, and the others. -/
structure VPNClient where
  Name : GoString
  Other : GoString
deriving DecidableEq

/-- The field of `schema.EspState` that `getIndex` reads, and the others. -/
structure EspState where
  Spi : Int
  Other : GoString
deriving DecidableEq

/-- The fields of `schema.Network` kept by the snapshot. -/
structure Network where
  Name : GoString
  Other : GoString
deriving DecidableEq

/-- The struct `schema.Index`. -/
structure Index where
  Version : GoString
  Worker : GoString
  Points : List Point
  Links : List Link
  Neighbors : List Neighbor
  OnLines : List OnLine
  Network : List Network
  Clients : List VPNClient
  States : List EspState
deriving DecidableEq

end schema

/-- The live network record `models.Network`, of which `getIndex` reads the name. -/
structure ModelNetwork where
  Name : GoString
  Other : GoString
deriving DecidableEq

/-- The switch as `getIndex` sees it. Each `List` accessor of `cache` is the finite
sequence of values its channel delivers, `none` being the nil sentinel; the live
records have types `P`, `N`, `L`, `O`, `S`, and the `New...Schema` functions of
`models` project them into snapshot entries. -/
structure Cache (P N L O S : Type) where
  NewVersionSchema : GoString
  NewWorkerSchema : GoString
  PointList : List (Option P)
  NewPointSchema : P → schema.Point
  NeighborList : List (Option N)
  NewNeighborSchema : N → schema.Neighbor
  LinkList : List (Option L)
  NewLinkSchema : L → schema.Link
  OnlineList : List (Option O)
  NewOnLineSchema : O → schema.OnLine
  NetworkList : List (Option ModelNetwork)
  VPNClientList : GoString → List (Option schema.VPNClient)
  EspStateList : List (Option S)
  NewEspStateSchema : S → schema.EspState

/-- The receive loop `for x := range ch { if x == nil { break } ... }`: the values
received before the first nil, or before the channel is closed. -/
def drain {α : Type} : List (Option α) → List α
  | [] => []
  | none :: _ => []
  | some x :: rest => x :: drain rest

/-- Insertion of `x` into a list, after the leading entries that are less than `x`. -/
def orderedInsert {α : Type} (less : α → α → Bool) (x : α) : List α → List α
  | [] => [x]
  | y :: ys => if less y x then y :: orderedInsert less x ys else x :: y :: ys

/-- Go `sort.SliceStable(x, less)`, by its documented contract: the slice sorted by
`less`, equal elements keeping their original order. It is embedded as the stable
insertion sort, with which Go's own implementation sorts its blocks. -/
def SliceStable {α : Type} (less : α → α → Bool) (x : List α) : List α :=
  x.foldr (orderedInsert less) []

/-- The properties of a comparison under which `SliceStable` is specified: it is a
strict weak order. -/
structure StrictWeak {α : Type} (less : α → α → Bool) : Prop where
  asymm : ∀ a b, less a b = true → less b a = false
  trans : ∀ a b c, less a b = true → less b c = true → less a c = true
  negtrans : ∀ a b c, less a b = false → less b c = false → less a c = false

/-- The comparison of the Points sort (http.go:222-226). -/
def lessPoint (ii jj : schema.Point) : Bool :=
  strings.Less (jj.Network ++ jj.Remote) (ii.Network ++ ii.Remote)

/-- The comparison of the Neighbors sort (http.go:234-236). -/
def lessNeighbor (ii jj : schema.Neighbor) : Bool := strings.Less jj.IpAddr ii.IpAddr

/-- The comparison of the Links sort (http.go:244-248). -/
def lessLink (ii jj : schema.Link) : Bool :=
  strings.Less (jj.Network ++ jj.Server) (ii.Network ++ ii.Server)

/-- The comparison of the OnLines sort (http.go:256-258). -/
def lessOnLine (ii jj : schema.OnLine) : Bool := decide (ii.HitTime < jj.HitTime)

/-- The comparison of the Clients sort (http.go:270-272). -/
def lessClient (ii jj : schema.VPNClient) : Bool := strings.Less ii.Name jj.Name

/-- The comparison of the States sort (http.go:281-285). -/
def lessState (ii jj : schema.EspState) : Bool := decide (jj.Spi < ii.Spi)

/-- The loop over the networks (http.go:260-273): the clients of each network are
appended to the sequence, and the whole sequence is sorted after each network. -/
def clientsLoop (VPNClientList : GoString → List (Option schema.VPNClient)) :
    List ModelNetwork → List schema.VPNClient → List schema.VPNClient
  | [], clients => clients
  | n :: ns, clients =>
    clientsLoop VPNClientList ns (SliceStable lessClient (clients ++ drain (VPNClientList n.Name)))

/-- `Http.getIndex` (http.go:211-287). -/
def getIndex {P N L O S : Type} (c : Cache P N L O S) (body : schema.Index) : schema.Index :=
  { Version := c.NewVersionSchema
    Worker := c.NewWorkerSchema
    Points := SliceStable lessPoint (body.Points ++ (drain c.PointList).map c.NewPointSchema)
    Neighbors :=
      SliceStable lessNeighbor (body.Neighbors ++ (drain c.NeighborList).map c.NewNeighborSchema)
    Links := SliceStable lessLink (body.Links ++ (drain c.LinkList).map c.NewLinkSchema)
    OnLines := SliceStable lessOnLine (body.OnLines ++ (drain c.OnlineList).map c.NewOnLineSchema)
    Network := body.Network
    Clients := clientsLoop c.VPNClientList (drain c.NetworkList) body.Clients
    States := SliceStable lessState (body.States ++ (drain c.EspStateList).map c.NewEspStateSchema) }

/-- The snapshot `IndexHtml` and `GetIndex` start from: every sequence is empty. -/
def emptyIndex : schema.Index :=
  { Version := [], Worker := [], Points := [], Links := [], Neighbors := [], OnLines := [],
    Network := [], Clients := [], States := [] }

/-! ## The user command -/

namespace schema

/-- The struct `schema.User`. -/
structure User where
  Alias : GoString
  Name : GoString
  Network : GoString
  Password : GoString
  Role : GoString
  Lease : GoString
deriving DecidableEq

end schema

/-- The flags of the command line that `User.Add` reads from its `cli.Context`. -/
structure Context where
  name : GoString
  password : GoString
  role : GoString
  lease : GoString
  url : GoString
  token : GoString
deriving DecidableEq

/-- A request `clt.PostJSON(url, user, nil)` of the client made with `token`. -/
structure Post where
  token : GoString
  url : GoString
  user : schema.User
deriving DecidableEq

/-- What a run of `User.Add` does: it returns an error made by `libol.NewErr` before
any request, or it sends one request and returns what `PostJSON` returned, or it
stops on an index out of range. -/
inductive AddResult where
  | rejected (msg : GoString)
  | posted (req : Post) (err : Option GoString)
  | indexOutOfRange
deriving DecidableEq

/-- `User.Url` (user.go:18-24). -/
def User.Url (pfx name : GoString) : GoString :=
  if name = [] then pfx ++ lit "/api/user" else pfx ++ lit "/api/user/" ++ name

/-- `User.Add` (user.go:26-49). `PostJSON` is the answer of the server to a request. -/
def User.Add (c : Context) (PostJSON : Post → Option GoString) : AddResult :=
  let username := c.name
  let user : schema.User :=
    { Alias := [], Name := username, Network := [], Password := c.password, Role := c.role,
      Lease := c.lease }
  if user.Name = [] then .rejected (lit "name is empty")
  else if !strings.Contains username (lit "@") then .rejected (lit "name not contains network")
  else
    let values := strings.SplitN username (lit "@") 2
    match values.get? 0, values.get? 1 with
    | some v0, some v1 =>
      let user := { user with Name := v0, Network := v1 }
      let url := User.Url c.url user.Name
      let req : Post := { token := c.token, url := url, user := user }
      .posted req (PostJSON req)
    | _, _ => .indexOutOfRange

/-! ## Sample inputs -/

/-- A gateway without certificate, whose token file is `token`. -/
def exampleHttp : Http :=
  { switcher := 0, listen := lit "0.0.0.0:10000", adminToken := [], guestToken := [],
    adminFile := lit "token", server := some 0, crtFile := [], keyFile := [], pubDir := lit "public",
    router := some 0 }

/-- A switch with nothing in it, whose live records are their own snapshot entries. -/
def emptyCache :
    Cache schema.Point schema.Neighbor schema.Link schema.OnLine schema.EspState :=
  { NewVersionSchema := [], NewWorkerSchema := []
    PointList := [], NewPointSchema := id
    NeighborList := [], NewNeighborSchema := id
    LinkList := [], NewLinkSchema := id
    OnlineList := [], NewOnLineSchema := id
    NetworkList := [], VPNClientList := fun _ => []
    EspStateList := [], NewEspStateSchema := id }

/-- A point of network `net` with remote endpoint `remote`. -/
def mkPoint (net remote : String) : schema.Point :=
  { Network := lit net, Remote := lit remote, Other := [] }

/-- A client named `name`. -/
def mkClient (name : String) : schema.VPNClient := { Name := lit name, Other := [] }

/-- A switch with the networks `n1` and `n2`, in this order: `n1` has the client `b`,
`n2` has the client `a`. -/
def twoNetworks :
    Cache schema.Point schema.Neighbor schema.Link schema.OnLine schema.EspState :=
  { emptyCache with
    NetworkList := [some { Name := lit "n1", Other := [] }, some { Name := lit "n2", Other := [] }]
    VPNClientList := fun n => if n = lit "n1" then [some (mkClient "b")] else [some (mkClient "a")] }

/-! ## Theorems -/

/-! ### The middleware -/

theorem Header.Set_same (hd : Header) (k v : String) : hd.Set k v k = [v] := by
  simp [Header.Set]

theorem Header.Set_other (hd : Header) (k v k' : String) (hk : k' ≠ k) :
    hd.Set k v k' = hd k' := by
  simp [Header.Set, hk]

/-- C1: `Http.Middleware` calls the wrapped handler, with the writer and the request
unchanged, exactly when the path is under `/api/` and the admin token is presented,
or the path is not under `/api/` but under `/get/` and the guest token is presented,
or the path is under neither; in every other case the handler is not called and the
response has status 401 and the header `WWW-Authenticate: Basic`. -/
theorem Middleware_auth_gate (h : Http) (w : ResponseWriter) (r : Request) :
    ((h.Middleware w r).invoked = true ↔
      (strings.HasPrefix r.Path (lit "/api/") = true ∧ r.ok = true ∧ r.token = h.adminToken) ∨
      (strings.HasPrefix r.Path (lit "/api/") = false ∧
        strings.HasPrefix r.Path (lit "/get/") = true ∧ r.ok = true ∧ r.token = h.guestToken) ∨
      (strings.HasPrefix r.Path (lit "/api/") = false ∧
        strings.HasPrefix r.Path (lit "/get/") = false)) ∧
    ((h.Middleware w r).invoked = true → h.Middleware w r = .forwarded w r) ∧
    ((h.Middleware w r).invoked = false →
      (h.Middleware w r).writer.status = some 401 ∧
      (h.Middleware w r).writer.header "WWW-Authenticate" = ["Basic"]) := by
  have hinv : (h.Middleware w r).invoked = h.IsAuth r := by
    unfold Http.Middleware
    cases h.IsAuth r <;> rfl
  refine ⟨?_, ?_, ?_⟩
  · rw [hinv]
    unfold Http.IsAuth
    cases hapi : strings.HasPrefix r.Path (lit "/api/") <;>
      cases hget : strings.HasPrefix r.Path (lit "/get/") <;>
      cases hok : r.ok <;>
      simp
  · unfold Http.Middleware
    cases hauth : h.IsAuth r <;> simp [Served.invoked]
  · unfold Http.Middleware
    cases hauth : h.IsAuth r
    · intro _
      refine ⟨rfl, ?_⟩
      simp only [Served.writer, httpError, Bool.false_eq_true, if_false]
      rw [Header.Set_other _ _ _ _ (by decide), Header.Set_other _ _ _ _ (by decide),
        Header.Set_same]
    · simp [Served.invoked]

/-- C1, at a request for `/api/index` without credentials, which is denied. -/
theorem Middleware_auth_gate_witness :
    (({ switcher := 0, listen := [], adminToken := lit "secret", guestToken := lit "guest",
        adminFile := [], server := none, crtFile := [], keyFile := [], pubDir := [],
        router := none } : Http).Middleware
      { header := fun _ => [], status := none, body := "" }
      { Method := lit "GET", Path := lit "/api/index", token := [], pass := [],
        ok := false }).writer.status = some 401 :=
  ((Middleware_auth_gate _ _ _).2.2 (by decide)).1

/-! ### The guest token -/

theorem md5_Sum_length (data : GoString) : (md5.Sum data).length = 16 := by
  simp [md5.Sum, md5.leBytes]

theorem hextable_getD_mem : ∀ i : Fin 16, hex.hextable.getD i.val 0 ∈ hex.hextable := by
  decide

theorem hextable_getD_inj :
    ∀ i j : Fin 16, hex.hextable.getD i.val 0 = hex.hextable.getD j.val 0 → i = j := by
  decide

theorem nibbles_lt (b : Fin 256) : b.val >>> 4 < 16 ∧ b.val &&& 0x0f < 16 := by
  constructor
  · rw [Nat.shiftRight_eq_div_pow]; omega
  · have := Nat.and_le_right (n := b.val) (m := 0x0f); omega

theorem encodeByte_mem_hextable (b : Fin 256) : ∀ c ∈ hex.encodeByte b, c ∈ hex.hextable := by
  intro c hc
  simp only [hex.encodeByte, List.mem_cons, List.mem_singleton, List.not_mem_nil, or_false] at hc
  rcases hc with rfl | rfl
  · exact hextable_getD_mem ⟨_, (nibbles_lt b).1⟩
  · exact hextable_getD_mem ⟨_, (nibbles_lt b).2⟩

theorem encodeByte_injective (b b' : Fin 256) (h : hex.encodeByte b = hex.encodeByte b') :
    b = b' := by
  simp only [hex.encodeByte, List.cons.injEq, and_true] at h
  have h1 := hextable_getD_inj ⟨_, (nibbles_lt b).1⟩ ⟨_, (nibbles_lt b').1⟩ h.1
  have h2 := hextable_getD_inj ⟨_, (nibbles_lt b).2⟩ ⟨_, (nibbles_lt b').2⟩ h.2
  simp only [Fin.mk.injEq] at h1 h2
  have e : ∀ x : Nat, x &&& 0x0f = x % 16 := fun x => Nat.and_pow_two_sub_one_eq_mod x 4
  rw [e, e] at h2
  rw [Nat.shiftRight_eq_div_pow, Nat.shiftRight_eq_div_pow] at h1
  apply Fin.ext
  omega

theorem EncodeToString_cons (b : Fin 256) (l : List (Fin 256)) :
    hex.EncodeToString (b :: l) = hex.encodeByte b ++ hex.EncodeToString l := by
  simp [hex.EncodeToString]

theorem EncodeToString_length (l : List (Fin 256)) :
    (hex.EncodeToString l).length = 2 * l.length := by
  induction l with
  | nil => rfl
  | cons b l ih => rw [EncodeToString_cons]; simp [hex.encodeByte, ih]; omega

theorem EncodeToString_take (k : Nat) (l : List (Fin 256)) :
    (hex.EncodeToString l).take (2 * k) = hex.EncodeToString (l.take k) := by
  induction k generalizing l with
  | zero => simp [hex.EncodeToString]
  | succ k ih =>
    cases l with
    | nil => simp [hex.EncodeToString]
    | cons b l =>
      rw [List.take_succ_cons, EncodeToString_cons, EncodeToString_cons, ← ih l]
      simp [hex.encodeByte, Nat.mul_succ]

theorem EncodeToString_injective (l l' : List (Fin 256))
    (h : hex.EncodeToString l = hex.EncodeToString l') : l = l' := by
  induction l generalizing l' with
  | nil =>
    cases l' with
    | nil => rfl
    | cons b l' => simp [EncodeToString_cons, hex.EncodeToString, hex.encodeByte] at h
  | cons b l ih =>
    cases l' with
    | nil => simp [EncodeToString_cons, hex.EncodeToString, hex.encodeByte] at h
    | cons b' l' =>
      rw [EncodeToString_cons, EncodeToString_cons] at h
      have hb : hex.encodeByte b = hex.encodeByte b' := by
        simp only [hex.encodeByte, List.cons_append, List.nil_append, List.cons.injEq] at h
        simp only [hex.encodeByte, List.cons.injEq, and_true]
        exact ⟨h.1, h.2.1⟩
      have hl : hex.EncodeToString l = hex.EncodeToString l' := by
        simp only [hex.encodeByte, List.cons_append, List.nil_append, List.cons.injEq] at h
        exact h.2.2
      rw [encodeByte_injective b b' hb, ih l' hl]

theorem guestToken_eq (h : Http) (value : GoString) :
    (h.SetToken value).guestToken = hex.EncodeToString ((md5.Sum value).take 6) := by
  show (hex.EncodeToString ((md5.Sum value).take 16)).take 12 = _
  rw [List.take_of_length_le (le_of_eq (md5_Sum_length value))]
  exact EncodeToString_take 6 _

set_option maxRecDepth 100000 in
/-- The MD5 model on the test suite of RFC 1321: the empty string. -/
theorem md5_Sum_empty :
    hex.EncodeToString (md5.Sum (lit "")) = lit "d41d8cd98f00b204e9800998ecf8427e" := by
  decide

set_option maxRecDepth 100000 in
/-- The MD5 model on the test suite of RFC 1321: `abc`. -/
theorem md5_Sum_abc :
    hex.EncodeToString (md5.Sum (lit "abc")) = lit "900150983cd24fb0d6963f7d28e17f72" := by
  decide

set_option maxRecDepth 100000 in
/-- The MD5 model on the test suite of RFC 1321: a message of two blocks. -/
theorem md5_Sum_digits :
    hex.EncodeToString (md5.Sum (lit
      "12345678901234567890123456789012345678901234567890123456789012345678901234567890")) =
      lit "57edf4a22be3c955ac49da2e2107b67a" := by
  decide

/-- C2: after `SetToken(value)` the admin token is `value` and the guest token is the
first 12 characters of the lowercase hexadecimal encoding of the 16-byte MD5 digest of
`value`, which is the encoding of its first 6 bytes; it has length 12, is made of the
characters `0-9a-f`, depends on `value` only, and no other field changes. -/
theorem SetToken_tokens (h : Http) (value : GoString) :
    (h.SetToken value).adminToken = value ∧
    (md5.Sum value).length = 16 ∧
    (h.SetToken value).guestToken = (hex.EncodeToString (md5.Sum value)).take 12 ∧
    (h.SetToken value).guestToken = hex.EncodeToString ((md5.Sum value).take 6) ∧
    (h.SetToken value).guestToken.length = 12 ∧
    (∀ c ∈ (h.SetToken value).guestToken, c ∈ lit "0123456789abcdef") ∧
    (∀ h' : Http, (h'.SetToken value).guestToken = (h.SetToken value).guestToken) ∧
    ((h.SetToken value).switcher = h.switcher ∧ (h.SetToken value).listen = h.listen ∧
      (h.SetToken value).adminFile = h.adminFile ∧ (h.SetToken value).server = h.server ∧
      (h.SetToken value).crtFile = h.crtFile ∧ (h.SetToken value).keyFile = h.keyFile ∧
      (h.SetToken value).pubDir = h.pubDir ∧ (h.SetToken value).router = h.router) := by
  have hlen := md5_Sum_length value
  refine ⟨rfl, hlen, ?_, guestToken_eq h value, ?_, ?_, fun _ => rfl,
    rfl, rfl, rfl, rfl, rfl, rfl, rfl, rfl⟩
  · show (hex.EncodeToString ((md5.Sum value).take 16)).take 12 = _
    rw [List.take_of_length_le (le_of_eq hlen)]
  · rw [guestToken_eq, EncodeToString_length, List.length_take, hlen]
    rfl
  · intro c hc
    rw [guestToken_eq] at hc
    simp only [hex.EncodeToString, List.mem_flatMap] at hc
    obtain ⟨b, _, hb⟩ := hc
    exact encodeByte_mem_hextable b c hb

set_option maxRecDepth 100000 in
/-- C8, refuted: the distinct admin tokens `792106` and `14125795` have MD5 digests
that both begin with the bytes `1d b4 aa cf 23 67`, hence the same guest token. -/
theorem SetToken_guest_collision :
    lit "792106" ≠ lit "14125795" ∧
    (exampleHttp.SetToken (lit "792106")).guestToken = lit "1db4aacf2367" ∧
    (exampleHttp.SetToken (lit "14125795")).guestToken = lit "1db4aacf2367" := by
  decide

/-- C8, amended: the guest tokens derived from two admin tokens differ exactly when the
first 6 bytes of the MD5 digests of the two tokens differ. -/
theorem SetToken_guest_differs_iff (h h' : Http) (a b : GoString) :
    (h.SetToken a).guestToken ≠ (h'.SetToken b).guestToken ↔
      (md5.Sum a).take 6 ≠ (md5.Sum b).take 6 := by
  rw [guestToken_eq, guestToken_eq]
  constructor
  · intro hne heq
    exact hne (by rw [heq])
  · intro hne heq
    exact hne (EncodeToString_injective _ _ heq)

/-! ### Token file -/

theorem trimLoop_done (rev : Bool) (k : Nat) (s : GoString) (hk : s.length ≤ k) :
    strings.spaceWidth rev (strings.trimLoop rev k s) = 0 := by
  induction k generalizing s with
  | zero =>
    have hs : s = [] := List.length_eq_zero.mp (Nat.le_zero.mp hk)
    subst hs
    rfl
  | succ k ih =>
    simp only [strings.trimLoop]
    by_cases hw : strings.spaceWidth rev s = 0
    · rw [if_pos hw, hw]
    · rw [if_neg hw]
      apply ih
      rw [List.length_drop]
      omega

/-- The rounds of `TrimSpace` are enough: what it returns does not end with a
white-space rune, and it is cut from a string that does not start with one. -/
theorem TrimSpace_done (s : GoString) :
    strings.spaceWidth true (strings.TrimSpace s).reverse = 0 := by
  simp only [strings.TrimSpace, List.reverse_reverse]
  exact trimLoop_done true _ _ (le_of_eq (List.length_reverse _))

/-- C3, refuted: the admin token ` x` (with a leading space) is saved without
error, and `LoadToken` on the saved file then installs `x`; and the empty admin token
of a gateway that has not loaded a token yet is saved without error, and `LoadToken`
on the saved file then installs the random token. -/
theorem SaveToken_LoadToken_trims :
    (SaveEnv.mk false none).succeeds = true ∧
    (exampleHttp.SetToken (lit " x")).adminToken = lit " x" ∧
    (exampleHttp.LoadToken
      ((exampleHttp.SetToken (lit " x")).SaveToken (fun _ => none) (SaveEnv.mk false none))
      false (lit "0123456789abcdefghijklmnopqrstuv")).adminToken = lit "x" ∧
    lit "x" ≠ lit " x" ∧
    exampleHttp.adminToken = [] ∧
    (exampleHttp.LoadToken
      (exampleHttp.SaveToken (fun _ => none) (SaveEnv.mk false none))
      false (lit "0123456789abcdefghijklmnopqrstuv")).adminToken =
        lit "0123456789abcdefghijklmnopqrstuv" := by
  decide

/-- C3, amended: when `SaveToken` writes the token file without error and `LoadToken`
then reads that file without error, the admin token after `LoadToken` is the saved
token with its surrounding white space removed, or a fresh random token when nothing
is left; it is the saved token itself when that is not empty and has no leading or
trailing white space. -/
theorem SaveToken_LoadToken_round_trip (h h' : Http) (fs : FileSys) (io : SaveEnv)
    (random : GoString) (hio : io.succeeds = true) (hfile : h'.adminFile = h.adminFile) :
    (h'.LoadToken (h.SaveToken fs io) false random).adminToken =
      (if strings.TrimSpace h.adminToken = [] then random
        else strings.TrimSpace h.adminToken) ∧
    (h.adminToken ≠ [] → strings.TrimSpace h.adminToken = h.adminToken →
      (h'.LoadToken (h.SaveToken fs io) false random).adminToken = h.adminToken) := by
  have hopen : io.openFails = false := by
    cases ho : io.openFails
    · rfl
    · simp [SaveEnv.succeeds, ho] at hio
  have hwrite : io.writeFails = none := by
    cases hw : io.writeFails
    · rfl
    · simp [SaveEnv.succeeds, hw] at hio
  have hfs : h.SaveToken fs io h'.adminFile = some h.adminToken := by
    simp [Http.SaveToken, hopen, hwrite, FileSys.put, hfile]
  have hload : (h'.LoadToken (h.SaveToken fs io) false random).adminToken =
      (if strings.TrimSpace h.adminToken = [] then random
        else strings.TrimSpace h.adminToken) := by
    simp [Http.LoadToken, hfs, Http.SetToken]
  refine ⟨hload, fun hne htrim => ?_⟩
  rw [hload, htrim, if_neg hne]

/-- C3, amended, at the token `secret` saved into an empty file system. -/
theorem SaveToken_LoadToken_round_trip_witness :
    (exampleHttp.LoadToken
      ((exampleHttp.SetToken (lit "secret")).SaveToken (fun _ => none) (SaveEnv.mk false none))
      false (lit "0123456789abcdefghijklmnopqrstuv")).adminToken = lit "secret" :=
  (SaveToken_LoadToken_round_trip (exampleHttp.SetToken (lit "secret")) exampleHttp
    (fun _ => none) (SaveEnv.mk false none) (lit "0123456789abcdefghijklmnopqrstuv")
    (by decide) (by decide)).2 (by decide) (by decide)

/-! ### Start -/

/-- C9, refuted: on both branches, when the serve call returns `ErrServerClosed`, the
function handed to the retry loop returns that error, not nil. -/
theorem StartFunc_returns_ErrServerClosed :
    exampleHttp.StartFunc (some .ErrServerClosed) (fun _ _ => none) =
      some .ErrServerClosed ∧
    ({ exampleHttp with crtFile := lit "crt", keyFile := lit "key" } : Http).StartFunc none
      (fun _ _ => some .ErrServerClosed) = some .ErrServerClosed := by
  decide

/-- C9, amended: the function handed to the retry loop returns exactly what the serve
call of its branch returned, `ListenAndServe` without a key or certificate file and
`ListenAndServeTLS` with both; it returns nil only when that call returned nil. -/
theorem StartFunc_returns_serve_error (h : Http) (ListenAndServe : Option ServeError)
    (ListenAndServeTLS : GoString → GoString → Option ServeError) :
    h.StartFunc ListenAndServe ListenAndServeTLS =
      (if h.keyFile = [] ∨ h.crtFile = [] then ListenAndServe
        else ListenAndServeTLS h.crtFile h.keyFile) ∧
    (h.StartFunc ListenAndServe ListenAndServeTLS = none ↔
      (if h.keyFile = [] ∨ h.crtFile = [] then ListenAndServe
        else ListenAndServeTLS h.crtFile h.keyFile) = none) := by
  have key : h.StartFunc ListenAndServe ListenAndServeTLS =
      (if h.keyFile = [] ∨ h.crtFile = [] then ListenAndServe
        else ListenAndServeTLS h.crtFile h.keyFile) := by
    unfold Http.StartFunc
    by_cases hk : h.keyFile = [] <;> by_cases hc : h.crtFile = []
    all_goals simp only [hk, hc, decide_True, decide_False, Bool.or_true, Bool.or_false,
      Bool.true_or, or_true, true_or, or_self, if_true, if_false, Bool.false_eq_true]
    all_goals first
      | (cases ListenAndServe <;> rfl)
      | (cases ListenAndServeTLS h.crtFile h.keyFile <;> rfl)
  exact ⟨key, by rw [key]⟩

/-! ### The user command -/

theorem HasPrefix_single (c x : Fin 256) (cs : GoString) :
    strings.HasPrefix (c :: cs) [x] = decide (c = x) := by
  simp only [strings.HasPrefix, List.length_cons, List.length_nil, List.take_succ_cons,
    List.take_zero]
  by_cases h : c = x <;> simp [h]

theorem indexFrom_single_none (x : Fin 256) (s : GoString) (i : Nat) (hx : x ∉ s) :
    strings.indexFrom [x] s i = none := by
  induction s generalizing i with
  | nil => simp [strings.indexFrom]
  | cons c cs ih =>
    simp only [List.mem_cons, not_or] at hx
    have hc : c ≠ x := fun e => hx.1 e.symm
    simp [strings.indexFrom, HasPrefix_single, hc, ih (i + 1) hx.2]

theorem indexFrom_single_some (x : Fin 256) (s : GoString) (i : Nat) (hx : x ∈ s) :
    ∃ m, strings.indexFrom [x] s i = some (i + m) ∧ x ∉ s.take m ∧
      s.take m ++ x :: s.drop (m + 1) = s := by
  induction s generalizing i with
  | nil => simp at hx
  | cons c cs ih =>
    by_cases hc : c = x
    · refine ⟨0, ?_, by simp, by simp [hc]⟩
      simp [strings.indexFrom, HasPrefix_single, hc]
    · have hx' : x ∈ cs := by
        rcases List.mem_cons.mp hx with e | e
        · exact absurd e.symm hc
        · exact e
      obtain ⟨m, h1, h2, h3⟩ := ih (i + 1) hx'
      refine ⟨m + 1, ?_, ?_, ?_⟩
      · simp only [strings.indexFrom, HasPrefix_single, hc, decide_False, Bool.false_eq_true,
          if_false, h1]
        congr 1
        omega
      · simp only [List.take_succ_cons, List.mem_cons, not_or]
        exact ⟨fun e => hc e.symm, h2⟩
      · simp only [List.take_succ_cons, List.drop_succ_cons, List.cons_append, h3]

/-- C10: `User.Add` returns an error without sending a request when the name is empty
or holds no `@`; otherwise it sends one request, whose user has for `Name` the part of
the name before the first `@` and for `Network` everything after it, so that
`Name + "@" + Network` is the name given and `Name` holds no `@`, to the URL
`User.Url(url, Name)`: `url + "/api/user/" + Name`, or `url + "/api/user"` when `Name`
is empty. -/
theorem User_Add_name_parsing (c : Context) (PostJSON : Post → Option GoString) :
    (c.name = [] → User.Add c PostJSON = .rejected (lit "name is empty")) ∧
    (c.name ≠ [] → (64 : Fin 256) ∉ c.name →
      User.Add c PostJSON = .rejected (lit "name not contains network")) ∧
    (c.name ≠ [] → (64 : Fin 256) ∈ c.name →
      ∃ name network : GoString,
        name ++ lit "@" ++ network = c.name ∧ (64 : Fin 256) ∉ name ∧
        User.Add c PostJSON =
          .posted
            { token := c.token, url := User.Url c.url name,
              user := { Alias := [], Name := name, Network := network,
                        Password := c.password, Role := c.role, Lease := c.lease } }
            (PostJSON
              { token := c.token, url := User.Url c.url name,
                user := { Alias := [], Name := name, Network := network,
                          Password := c.password, Role := c.role, Lease := c.lease } }) ∧
        User.Url c.url name =
          (if name = [] then c.url ++ lit "/api/user" else c.url ++ lit "/api/user/" ++ name)) := by
  have hat : lit "@" = [(64 : Fin 256)] := by decide
  refine ⟨fun h0 => ?_, fun h0 hx => ?_, fun h0 hx => ?_⟩
  · simp [User.Add, h0]
  · have hc : strings.Contains c.name (lit "@") = false := by
      simp [strings.Contains, strings.Index, hat, indexFrom_single_none _ _ 0 hx]
    simp [User.Add, h0, hc]
  · obtain ⟨m, h1, h2, h3⟩ := indexFrom_single_some 64 c.name 0 hx
    rw [Nat.zero_add] at h1
    have hc : strings.Contains c.name (lit "@") = true := by
      simp [strings.Contains, strings.Index, hat, h1]
    have hlen : min 2 (c.name.length + 1) - 1 = 1 := by
      cases hn : c.name with
      | nil => exact absurd hn h0
      | cons a as => simp only [List.length_cons]; omega
    have hsplit : strings.SplitN c.name (lit "@") 2 = [c.name.take m, c.name.drop (m + 1)] := by
      simp [strings.SplitN, hlen, strings.splitLoop, strings.Index, hat, h1]
    refine ⟨c.name.take m, c.name.drop (m + 1), ?_, h2, ?_, rfl⟩
    · rw [hat]; simpa using h3
    · simp [User.Add, h0, hc, hsplit]

/-- C10, at the name `alice@example`, posted to `https://sw/api/user/alice`. -/
theorem User_Add_name_parsing_witness :
    ∃ name network : GoString,
      name ++ lit "@" ++ network = lit "alice@example" ∧ (64 : Fin 256) ∉ name ∧
      User.Add { name := lit "alice@example", password := lit "pw", role := lit "guest",
                 lease := [], url := lit "https://sw", token := lit "t" } (fun _ => none) =
        .posted
          { token := lit "t", url := User.Url (lit "https://sw") name,
            user := { Alias := [], Name := name, Network := network, Password := lit "pw",
                      Role := lit "guest", Lease := [] } }
          none ∧
      User.Url (lit "https://sw") name =
        (if name = [] then lit "https://sw" ++ lit "/api/user"
          else lit "https://sw" ++ lit "/api/user/" ++ name) :=
  (User_Add_name_parsing
    { name := lit "alice@example", password := lit "pw", role := lit "guest",
      lease := [], url := lit "https://sw", token := lit "t" } (fun _ => none)).2.2
    (by decide) (by decide)

/-! ### String comparison -/

theorem Less_irrefl (a : GoString) : strings.Less a a = false := by
  induction a with
  | nil => rfl
  | cons x as ih => simp [strings.Less, ih]

theorem Less_cons (x y : Fin 256) (as bs : GoString) :
    strings.Less (x :: as) (y :: bs) = true ↔ x < y ∨ (x = y ∧ strings.Less as bs = true) := by
  simp only [strings.Less]
  by_cases h1 : x < y
  · simp [h1]
  · by_cases h2 : y < x
    · have hne : x ≠ y := fun e => by subst e; exact h1 h2
      simp [h1, h2, hne]
    · have he : x = y := le_antisymm (not_lt.mp h2) (not_lt.mp h1)
      simp [h1, h2, he]

theorem Less_trans (a b c : GoString) (hab : strings.Less a b = true)
    (hbc : strings.Less b c = true) : strings.Less a c = true := by
  induction a generalizing b c with
  | nil =>
    cases b with
    | nil => simp [strings.Less] at hab
    | cons y bs =>
      cases c with
      | nil => simp [strings.Less] at hbc
      | cons z cs => rfl
  | cons x as ih =>
    cases b with
    | nil => simp [strings.Less] at hab
    | cons y bs =>
      cases c with
      | nil => simp [strings.Less] at hbc
      | cons z cs =>
        rw [Less_cons] at hab hbc ⊢
        rcases hab with h1 | ⟨h1, h1'⟩
        · rcases hbc with h2 | ⟨h2, _⟩
          · exact Or.inl (lt_trans h1 h2)
          · exact Or.inl (h2 ▸ h1)
        · rcases hbc with h2 | ⟨h2, h2'⟩
          · exact Or.inl (h1 ▸ h2)
          · exact Or.inr ⟨h1.trans h2, ih bs cs h1' h2'⟩

theorem Less_total (a b : GoString) :
    strings.Less a b = true ∨ a = b ∨ strings.Less b a = true := by
  induction a generalizing b with
  | nil =>
    cases b with
    | nil => exact Or.inr (Or.inl rfl)
    | cons y bs => exact Or.inl rfl
  | cons x as ih =>
    cases b with
    | nil => exact Or.inr (Or.inr rfl)
    | cons y bs =>
      rw [Less_cons, Less_cons]
      rcases lt_trichotomy x y with h | h | h
      · exact Or.inl (Or.inl h)
      · rcases ih bs with h' | h' | h'
        · exact Or.inl (Or.inr ⟨h, h'⟩)
        · exact Or.inr (Or.inl (by rw [h, h']))
        · exact Or.inr (Or.inr (Or.inr ⟨h.symm, h'⟩))
      · exact Or.inr (Or.inr (Or.inl h))

theorem Less_asymm (a b : GoString) (hab : strings.Less a b = true) :
    strings.Less b a = false := by
  cases h : strings.Less b a
  · rfl
  · have := Less_trans a b a hab h
    rw [Less_irrefl] at this
    exact absurd this (by decide)

theorem Less_negtrans (a b c : GoString) (hab : strings.Less a b = false)
    (hbc : strings.Less b c = false) : strings.Less a c = false := by
  cases h : strings.Less a c
  · rfl
  · exfalso
    rcases Less_total a b with h1 | h1 | h1
    · rw [h1] at hab; exact absurd hab (by decide)
    · rw [← h1, h] at hbc; exact absurd hbc (by decide)
    · have := Less_trans b a c h1 h
      rw [this] at hbc; exact absurd hbc (by decide)

/-! ### Stable sorting -/

theorem drain_sentinel {α : Type} (es : List α) (tail : List (Option α)) :
    drain (es.map some ++ none :: tail) = es := by
  induction es with
  | nil => rfl
  | cons e es ih => simp [drain, ih]

theorem drain_closed {α : Type} (es : List α) : drain (es.map some) = es := by
  induction es with
  | nil => rfl
  | cons e es ih => simp [drain, ih]

theorem orderedInsert_perm {α : Type} (less : α → α → Bool) (x : α) (l : List α) :
    (orderedInsert less x l).Perm (x :: l) := by
  induction l with
  | nil => exact List.Perm.refl _
  | cons y ys ih =>
    simp only [orderedInsert]
    split
    · exact (List.Perm.cons y ih).trans (List.Perm.swap x y ys)
    · exact List.Perm.refl _

theorem SliceStable_cons {α : Type} (less : α → α → Bool) (x : α) (l : List α) :
    SliceStable less (x :: l) = orderedInsert less x (SliceStable less l) := rfl

theorem SliceStable_perm {α : Type} (less : α → α → Bool) (l : List α) :
    (SliceStable less l).Perm l := by
  induction l with
  | nil => exact List.Perm.refl _
  | cons x xs ih =>
    rw [SliceStable_cons]
    exact (orderedInsert_perm less x _).trans (List.Perm.cons x ih)

theorem orderedInsert_sorted {α : Type} {less : α → α → Bool} (hw : StrictWeak less) (x : α)
    (l : List α) (hl : l.Pairwise (fun a b => less b a = false)) :
    (orderedInsert less x l).Pairwise (fun a b => less b a = false) := by
  induction l with
  | nil => simp [orderedInsert]
  | cons y ys ih =>
    rw [List.pairwise_cons] at hl
    simp only [orderedInsert]
    cases hyx : less y x
    · simp only [Bool.false_eq_true, if_false]
      refine List.pairwise_cons.mpr ⟨?_, List.pairwise_cons.mpr hl⟩
      intro b hb
      rcases List.mem_cons.mp hb with rfl | hb
      · exact hyx
      · exact hw.negtrans b y x (hl.1 b hb) hyx
    · simp only [if_true]
      refine List.pairwise_cons.mpr ⟨?_, ih hl.2⟩
      intro b hb
      rcases List.mem_cons.mp ((orderedInsert_perm less x ys).subset hb) with rfl | hb
      · exact hw.asymm y b hyx
      · exact hl.1 b hb

theorem SliceStable_sorted {α : Type} {less : α → α → Bool} (hw : StrictWeak less)
    (l : List α) : (SliceStable less l).Pairwise (fun a b => less b a = false) := by
  induction l with
  | nil => exact List.Pairwise.nil
  | cons x xs ih =>
    rw [SliceStable_cons]
    exact orderedInsert_sorted hw x _ ih

theorem orderedInsert_filter {α : Type} (less : α → α → Bool) (p : α → Bool)
    (hp : ∀ a b, p a = true → p b = true → less a b = false) (x : α) (l : List α) :
    (orderedInsert less x l).filter p = (x :: l).filter p := by
  induction l with
  | nil => rfl
  | cons y ys ih =>
    simp only [orderedInsert]
    cases hyx : less y x
    · simp
    · simp only [if_true]
      cases hpx : p x
      · simp only [List.filter_cons, hpx, Bool.false_eq_true, if_false] at ih ⊢
        rw [ih]
      · have hpy : p y = false := by
          cases hpy : p y
          · rfl
          · rw [hp y x hpy hpx] at hyx; exact absurd hyx (by decide)
        simp only [List.filter_cons, hpx, hpy, if_true, Bool.false_eq_true, if_false] at ih ⊢
        exact ih

theorem SliceStable_filter {α : Type} (less : α → α → Bool) (p : α → Bool)
    (hp : ∀ a b, p a = true → p b = true → less a b = false) (l : List α) :
    (SliceStable less l).filter p = l.filter p := by
  induction l with
  | nil => rfl
  | cons x xs ih =>
    rw [SliceStable_cons, orderedInsert_filter less p hp, List.filter_cons, List.filter_cons, ih]

theorem orderedInsert_comm {α : Type} {less : α → α → Bool} (hw : StrictWeak less) (x y : α)
    (hyx : less y x = true) (l : List α) :
    orderedInsert less y (orderedInsert less x l) =
      orderedInsert less x (orderedInsert less y l) := by
  have hxy : less x y = false := hw.asymm y x hyx
  induction l with
  | nil => simp [orderedInsert, hyx, hxy]
  | cons z zs ih =>
    cases hzx : less z x <;> cases hzy : less z y
    · simp [orderedInsert, hzx, hzy, hyx, hxy]
    · rw [hw.trans z y x hzy hyx] at hzx
      exact absurd hzx (by decide)
    · simp [orderedInsert, hzx, hzy, hyx]
    · simp [orderedInsert, hzx, hzy, ih]

theorem foldr_orderedInsert_insert {α : Type} {less : α → α → Bool} (hw : StrictWeak less)
    (acc : List α) (x : α) (l : List α) :
    (orderedInsert less x l).foldr (orderedInsert less) acc =
      orderedInsert less x (l.foldr (orderedInsert less) acc) := by
  induction l with
  | nil => rfl
  | cons y ys ih =>
    simp only [orderedInsert]
    cases hyx : less y x
    · rfl
    · simp only [if_true, List.foldr_cons, ih]
      exact orderedInsert_comm hw x y hyx _

theorem SliceStable_append_sorted {α : Type} {less : α → α → Bool} (hw : StrictWeak less)
    (xs ys : List α) :
    SliceStable less (SliceStable less xs ++ ys) = SliceStable less (xs ++ ys) := by
  simp only [SliceStable, List.foldr_append]
  induction xs with
  | nil => rfl
  | cons x xs ih =>
    rw [List.foldr_cons, foldr_orderedInsert_insert hw, ih, List.foldr_cons]

theorem SliceStable_idem {α : Type} {less : α → α → Bool} (hw : StrictWeak less)
    (xs : List α) : SliceStable less (SliceStable less xs) = SliceStable less xs := by
  have := SliceStable_append_sorted hw xs []
  simpa using this

/-! ### The comparisons of `getIndex` -/

theorem strictWeak_of_key {α : Type} (key : α → GoString) :
    StrictWeak (fun a b : α => strings.Less (key a) (key b)) :=
  { asymm := fun a b => Less_asymm (key a) (key b)
    trans := fun a b c => Less_trans (key a) (key b) (key c)
    negtrans := fun a b c => Less_negtrans (key a) (key b) (key c) }

theorem StrictWeak.flip {α : Type} {less : α → α → Bool} (hw : StrictWeak less) :
    StrictWeak (fun a b => less b a) :=
  { asymm := fun a b h => hw.asymm b a h
    trans := fun a b c h1 h2 => hw.trans c b a h2 h1
    negtrans := fun a b c h1 h2 => hw.negtrans c b a h2 h1 }

theorem strictWeak_of_int {α : Type} (key : α → Int) :
    StrictWeak (fun a b : α => decide (key a < key b)) :=
  { asymm := fun a b h => by
      simp only [decide_eq_true_eq, decide_eq_false_iff_not] at h ⊢; omega
    trans := fun a b c h1 h2 => by
      simp only [decide_eq_true_eq] at h1 h2 ⊢; omega
    negtrans := fun a b c h1 h2 => by
      simp only [decide_eq_false_iff_not] at h1 h2 ⊢; omega }

theorem lessPoint_strictWeak : StrictWeak lessPoint :=
  (strictWeak_of_key (fun p : schema.Point => p.Network ++ p.Remote)).flip

theorem lessNeighbor_strictWeak : StrictWeak lessNeighbor :=
  (strictWeak_of_key (fun p : schema.Neighbor => p.IpAddr)).flip

theorem lessLink_strictWeak : StrictWeak lessLink :=
  (strictWeak_of_key (fun p : schema.Link => p.Network ++ p.Server)).flip

theorem lessOnLine_strictWeak : StrictWeak lessOnLine :=
  strictWeak_of_int (fun p : schema.OnLine => p.HitTime)

theorem lessClient_strictWeak : StrictWeak lessClient :=
  strictWeak_of_key (fun p : schema.VPNClient => p.Name)

theorem lessState_strictWeak : StrictWeak lessState :=
  (strictWeak_of_int (fun p : schema.EspState => p.Spi)).flip

theorem clientsLoop_eq (f : GoString → List (Option schema.VPNClient))
    (ns : List ModelNetwork) (clients : List schema.VPNClient) :
    clientsLoop f ns clients =
      if ns = [] then clients
      else SliceStable lessClient (clients ++ ns.flatMap (fun n => drain (f n.Name))) := by
  induction ns generalizing clients with
  | nil => rfl
  | cons n ns ih =>
    rw [clientsLoop, ih, if_neg (List.cons_ne_nil n ns)]
    by_cases hns : ns = []
    · subst hns; simp
    · rw [if_neg hns, SliceStable_append_sorted lessClient_strictWeak, List.flatMap_cons,
        List.append_assoc]

theorem getIndex_Clients {P N L O S : Type} (c : Cache P N L O S) :
    (getIndex c emptyIndex).Clients =
      SliceStable lessClient
        ((drain c.NetworkList).flatMap (fun n => drain (c.VPNClientList n.Name))) := by
  show clientsLoop c.VPNClientList (drain c.NetworkList) [] = _
  rw [clientsLoop_eq]
  by_cases hns : drain c.NetworkList = []
  · rw [if_pos hns, hns]; rfl
  · rw [if_neg hns, List.nil_append]

/-! ### The index snapshot -/

/-- C4, refuted: the points `(a, c)` and `(ab, a)` come out in this order, because
`ac > aba`, although the network `a` of the first is smaller than the network `ab` of
the second. -/
theorem getIndex_Points_not_pair_order :
    (getIndex { emptyCache with PointList := [some (mkPoint "a" "c"), some (mkPoint "ab" "a")] }
      emptyIndex).Points = [mkPoint "a" "c", mkPoint "ab" "a"] ∧
    ¬ (strings.Less (mkPoint "ab" "a").Network (mkPoint "a" "c").Network = true ∨
      ((mkPoint "a" "c").Network = (mkPoint "ab" "a").Network ∧
        strings.Less (mkPoint "a" "c").Remote (mkPoint "ab" "a").Remote = false)) := by
  decide

/-- C4, amended: the Points of a snapshot built from an empty one are in descending
order of the string `Network + Remote`: of two adjacent entries `p` before `q`, the
concatenation of `p` is not smaller than the concatenation of `q`. -/
theorem getIndex_Points_descending {P N L O S : Type} (c : Cache P N L O S) :
    (getIndex c emptyIndex).Points.Chain'
      (fun p q => strings.Less (p.Network ++ p.Remote) (q.Network ++ q.Remote) = false) :=
  (SliceStable_sorted lessPoint_strictWeak _).chain'

/-- C5, refuted: with the network `n1` holding the client `b` and the network `n2`
holding the client `a`, the snapshot lists `a` before `b`, while the concatenation of
the sorted groups of `n1` and `n2` is `b`, `a`. -/
theorem getIndex_Clients_global_order :
    drain twoNetworks.NetworkList =
      [{ Name := lit "n1", Other := [] }, { Name := lit "n2", Other := [] }] ∧
    (getIndex twoNetworks emptyIndex).Clients = [mkClient "a", mkClient "b"] ∧
    (drain twoNetworks.NetworkList).flatMap
      (fun n => SliceStable lessClient (drain (twoNetworks.VPNClientList n.Name))) =
      [mkClient "b", mkClient "a"] := by
  decide

/-- C5, amended: the Clients of a snapshot built from an empty one are the stable
sort, ascending by `Name`, of the concatenation in the order `n1..nk` of the clients
of all networks: a permutation of them, in ascending order of `Name` across networks,
clients of the same name staying in the order of the concatenation. -/
theorem getIndex_Clients_sorted {P N L O S : Type} (c : Cache P N L O S) :
    (getIndex c emptyIndex).Clients =
      SliceStable lessClient
        ((drain c.NetworkList).flatMap (fun n => drain (c.VPNClientList n.Name))) ∧
    (getIndex c emptyIndex).Clients.Perm
      ((drain c.NetworkList).flatMap (fun n => drain (c.VPNClientList n.Name))) ∧
    (getIndex c emptyIndex).Clients.Pairwise (fun p q => strings.Less q.Name p.Name = false) ∧
    (∀ name : GoString,
      (getIndex c emptyIndex).Clients.filter (fun p => p.Name = name) =
        ((drain c.NetworkList).flatMap (fun n => drain (c.VPNClientList n.Name))).filter
          (fun p => p.Name = name)) := by
  rw [getIndex_Clients]
  refine ⟨rfl, SliceStable_perm _ _, SliceStable_sorted lessClient_strictWeak _, fun name => ?_⟩
  apply SliceStable_filter
  intro a b ha hb
  simp only [decide_eq_true_eq] at ha hb
  simp only [lessClient, ha, hb, Less_irrefl]

/-- C6: when a stream emits its entries, then the nil sentinel, then anything, the
sequence of a snapshot built from an empty one holds as many entries as were emitted
before the sentinel, and is a permutation of their projections; what follows the
sentinel is not read. This holds of Points, Neighbors, Links, OnLines and States, and
of the Clients of the networks emitted before the sentinel of the network stream. -/
theorem getIndex_sentinel {P N L O S : Type} (c : Cache P N L O S)
    (ps : List P) (pt : List (Option P)) (ns : List N) (nt : List (Option N))
    (ls : List L) (lt : List (Option L)) (os : List O) (ot : List (Option O))
    (ss : List S) (st : List (Option S))
    (nets : List ModelNetwork) (nett : List (Option ModelNetwork))
    (cs : GoString → List schema.VPNClient) (ct : GoString → List (Option schema.VPNClient)) :
    ((getIndex { c with PointList := ps.map some ++ none :: pt } emptyIndex).Points.length
        = ps.length ∧
      (getIndex { c with PointList := ps.map some ++ none :: pt } emptyIndex).Points.Perm
        (ps.map c.NewPointSchema)) ∧
    ((getIndex { c with NeighborList := ns.map some ++ none :: nt } emptyIndex).Neighbors.length
        = ns.length ∧
      (getIndex { c with NeighborList := ns.map some ++ none :: nt } emptyIndex).Neighbors.Perm
        (ns.map c.NewNeighborSchema)) ∧
    ((getIndex { c with LinkList := ls.map some ++ none :: lt } emptyIndex).Links.length
        = ls.length ∧
      (getIndex { c with LinkList := ls.map some ++ none :: lt } emptyIndex).Links.Perm
        (ls.map c.NewLinkSchema)) ∧
    ((getIndex { c with OnlineList := os.map some ++ none :: ot } emptyIndex).OnLines.length
        = os.length ∧
      (getIndex { c with OnlineList := os.map some ++ none :: ot } emptyIndex).OnLines.Perm
        (os.map c.NewOnLineSchema)) ∧
    ((getIndex { c with EspStateList := ss.map some ++ none :: st } emptyIndex).States.length
        = ss.length ∧
      (getIndex { c with EspStateList := ss.map some ++ none :: st } emptyIndex).States.Perm
        (ss.map c.NewEspStateSchema)) ∧
    ((getIndex { c with
          NetworkList := nets.map some ++ none :: nett
          VPNClientList := fun name => (cs name).map some ++ none :: ct name }
        emptyIndex).Clients.length = (nets.flatMap (fun n => cs n.Name)).length ∧
      (getIndex { c with
          NetworkList := nets.map some ++ none :: nett
          VPNClientList := fun name => (cs name).map some ++ none :: ct name }
        emptyIndex).Clients.Perm (nets.flatMap (fun n => cs n.Name))) := by
  have hclients : (getIndex { c with
        NetworkList := nets.map some ++ none :: nett
        VPNClientList := fun name => (cs name).map some ++ none :: ct name }
      emptyIndex).Clients.Perm (nets.flatMap (fun n => cs n.Name)) := by
    rw [getIndex_Clients]
    simp only [drain_sentinel]
    exact SliceStable_perm _ _
  have key : ∀ {α β : Type} (less : β → β → Bool) (f : α → β) (es : List α)
      (tl : List (Option α)),
      (SliceStable less ([] ++ (drain (es.map some ++ none :: tl)).map f)).length = es.length ∧
      (SliceStable less ([] ++ (drain (es.map some ++ none :: tl)).map f)).Perm (es.map f) := by
    intro α β less f es tl
    rw [drain_sentinel, List.nil_append]
    have hp := SliceStable_perm less (es.map f)
    exact ⟨by rw [hp.length_eq, List.length_map], hp⟩
  exact ⟨key _ _ _ _, key _ _ _ _, key _ _ _ _, key _ _ _ _, key _ _ _ _,
    hclients.length_eq, hclients⟩

/-- C6, at three points followed by the sentinel and by a fourth point. -/
theorem getIndex_sentinel_witness :
    (getIndex { emptyCache with
        PointList := [mkPoint "a" "1", mkPoint "b" "2", mkPoint "c" "3"].map some ++
          none :: [some (mkPoint "d" "4")] } emptyIndex).Points.length = 3 :=
  (getIndex_sentinel emptyCache [mkPoint "a" "1", mkPoint "b" "2", mkPoint "c" "3"]
    [some (mkPoint "d" "4")] [] [] [] [] [] [] [] [] [] [] (fun _ => []) (fun _ => [])).1.1

/-- C7: the Points (key `Network + Remote`, descending), Neighbors (key `IpAddr`,
descending), OnLines (key `HitTime`, ascending) and States (key `Spi`, descending) of a
snapshot built from an empty one are each a permutation of the projected drained
entries, sorted by the key in that direction, and the entries of any one key are in
the order in which the stream emitted them. -/
theorem getIndex_stable_order {P N L O S : Type} (c : Cache P N L O S) :
    ((getIndex c emptyIndex).Points.Perm ((drain c.PointList).map c.NewPointSchema) ∧
      (getIndex c emptyIndex).Points.Pairwise
        (fun p q => strings.Less (p.Network ++ p.Remote) (q.Network ++ q.Remote) = false) ∧
      ∀ k : GoString,
        (getIndex c emptyIndex).Points.filter (fun p => p.Network ++ p.Remote = k) =
          ((drain c.PointList).map c.NewPointSchema).filter
            (fun p => p.Network ++ p.Remote = k)) ∧
    ((getIndex c emptyIndex).Neighbors.Perm ((drain c.NeighborList).map c.NewNeighborSchema) ∧
      (getIndex c emptyIndex).Neighbors.Pairwise
        (fun p q => strings.Less p.IpAddr q.IpAddr = false) ∧
      ∀ k : GoString,
        (getIndex c emptyIndex).Neighbors.filter (fun p => p.IpAddr = k) =
          ((drain c.NeighborList).map c.NewNeighborSchema).filter (fun p => p.IpAddr = k)) ∧
    ((getIndex c emptyIndex).OnLines.Perm ((drain c.OnlineList).map c.NewOnLineSchema) ∧
      (getIndex c emptyIndex).OnLines.Pairwise (fun p q => p.HitTime ≤ q.HitTime) ∧
      ∀ k : Int,
        (getIndex c emptyIndex).OnLines.filter (fun p => p.HitTime = k) =
          ((drain c.OnlineList).map c.NewOnLineSchema).filter (fun p => p.HitTime = k)) ∧
    ((getIndex c emptyIndex).States.Perm ((drain c.EspStateList).map c.NewEspStateSchema) ∧
      (getIndex c emptyIndex).States.Pairwise (fun p q => q.Spi ≤ p.Spi) ∧
      ∀ k : Int,
        (getIndex c emptyIndex).States.filter (fun p => p.Spi = k) =
          ((drain c.EspStateList).map c.NewEspStateSchema).filter (fun p => p.Spi = k)) := by
  refine ⟨⟨SliceStable_perm _ _, SliceStable_sorted lessPoint_strictWeak _, fun k => ?_⟩,
    ⟨SliceStable_perm _ _, SliceStable_sorted lessNeighbor_strictWeak _, fun k => ?_⟩,
    ⟨SliceStable_perm _ _, ?_, fun k => ?_⟩,
    ⟨SliceStable_perm _ _, ?_, fun k => ?_⟩⟩
  · apply SliceStable_filter
    intro a b ha hb
    simp only [decide_eq_true_eq] at ha hb
    simp only [lessPoint, ha, hb, Less_irrefl]
  · apply SliceStable_filter
    intro a b ha hb
    simp only [decide_eq_true_eq] at ha hb
    simp only [lessNeighbor, ha, hb, Less_irrefl]
  · refine (SliceStable_sorted lessOnLine_strictWeak _).imp ?_
    intro a b h
    simp only [lessOnLine, decide_eq_false_iff_not, not_lt] at h
    exact h
  · apply SliceStable_filter
    intro a b ha hb
    simp only [decide_eq_true_eq] at ha hb
    simp only [lessOnLine, ha, hb, lt_self_iff_false, decide_False]
  · refine (SliceStable_sorted lessState_strictWeak _).imp ?_
    intro a b h
    simp only [lessState, decide_eq_false_iff_not, not_lt] at h
    exact h
  · apply SliceStable_filter
    intro a b ha hb
    simp only [decide_eq_true_eq] at ha hb
    simp only [lessState, ha, hb, lt_self_iff_false, decide_False]

/-- C7, at the points `(a, 1.1.1.1)` and `(b, 2.2.2.2)`: `b2.2.2.2` comes out before
`a1.1.1.1`. -/
theorem getIndex_stable_order_witness :
    (getIndex { emptyCache with
        PointList := [some (mkPoint "a" "1.1.1.1"), some (mkPoint "b" "2.2.2.2")] }
      emptyIndex).Points = [mkPoint "b" "2.2.2.2", mkPoint "a" "1.1.1.1"] ∧
    (getIndex { emptyCache with
        PointList := [some (mkPoint "a" "1.1.1.1"), some (mkPoint "b" "2.2.2.2")] }
      emptyIndex).Points.Perm [mkPoint "a" "1.1.1.1", mkPoint "b" "2.2.2.2"] :=
  ⟨by decide,
    (getIndex_stable_order { emptyCache with
      PointList := [some (mkPoint "a" "1.1.1.1"), some (mkPoint "b" "2.2.2.2")] }).1.1⟩

end Openlan
